import Mathlib

/-!
Verification of the request-handling pipeline of the aerial-object-detection
Flask service (`app.py`): upload validation, filename allocation, the
inference pipeline's observable effects, response building, and the health
endpoint, shallowly embedded as pure Lean functions. One request's
interaction with the outside world (the clock, the uuid draw, which fallible
step raises) is packaged in an `Env` value, so each handler is a pure
function of the model handle, the request and the environment.
-/

namespace AerialDetection

/-- JSON values, as produced by Flask's `jsonify` (only the shapes this app
emits: strings, non-negative numbers, booleans, insertion-ordered objects). -/
inductive JVal where
  | str : String → JVal
  | num : Nat → JVal
  | bool : Bool → JVal
  | obj : List (String × JVal) → JVal
deriving Repr

/-- Python `c.lower()` on one character (ASCII case mapping, which is all the
extension handling needs). -/
def pyLowerChar (c : Char) : Char :=
  if 'A' ≤ c ∧ c ≤ 'Z' then Char.ofNat (c.toNat + 32) else c

/-- Python `s.lower()`. -/
def pyLower (s : String) : String := String.mk (s.data.map pyLowerChar)

/-- Split a character list at its last `'.'`: `some (before, after)` when a
dot occurs, `none` otherwise. List form of Python `s.rsplit('.', 1)`. -/
def lastDotSplit : List Char → Option (List Char × List Char)
  | [] => none
  | c :: cs =>
    match lastDotSplit cs with
    | some (b, a) => some (c :: b, a)
    | none => if c = '.' then some ([], cs) else none

/-- Python `'.' in s`. -/
def hasDot (s : String) : Bool := (lastDotSplit s.data).isSome

/-- Python `s.rsplit('.', 1)[0]`: everything before the last dot (the whole
string when there is no dot). -/
def beforeLastDot (s : String) : String :=
  match lastDotSplit s.data with
  | some (b, _) => String.mk b
  | none => s

/-- Python `s.rsplit('.', 1)[-1]`: everything after the last dot (the whole
string when there is no dot). -/
def afterLastDot (s : String) : String :=
  match lastDotSplit s.data with
  | some (_, a) => String.mk a
  | none => s

/-- The whitespace characters of Python `str.split()` (ASCII range). -/
def pyIsSpace (c : Char) : Bool :=
  c = ' ' || c = '\t' || c = '\n' || c = '\r' || c.toNat = 11 || c.toNat = 12

/-- Characters kept by werkzeug's `_filename_ascii_strip_re`: `[A-Za-z0-9_.-]`. -/
def keepChar (c : Char) : Bool :=
  c.isAlpha || c.isDigit || c = '_' || c = '.' || c = '-'

/-- Python `s.strip("._")` on a character list: drop leading and trailing
`'.'` and `'_'`. -/
def stripDotUnderscore (l : List Char) : List Char :=
  ((l.dropWhile fun c => c = '.' || c = '_').reverse.dropWhile
      fun c => c = '.' || c = '_').reverse

/-- Python `str.split()` on a character list: split on runs of whitespace,
producing no empty words. `acc` holds the current word reversed. -/
def splitWsAux : List Char → List Char → List (List Char)
  | [], acc => if acc.isEmpty then [] else [acc.reverse]
  | c :: cs, acc =>
    if pyIsSpace c then
      if acc.isEmpty then splitWsAux cs [] else acc.reverse :: splitWsAux cs []
    else splitWsAux cs (c :: acc)

/-- werkzeug's `secure_filename` (a library function `app.py` calls), embedded
for a posix host: NFKD-normalise and keep ASCII (modelled as dropping
non-ASCII characters), turn the path separator `'/'` into a space, join the
whitespace-split words with `'_'`, delete every character outside
`[A-Za-z0-9_.-]`, and strip `'.'`/`'_'` from both ends. -/
def secure_filename (s : String) : String :=
  let ascii := s.data.filter fun c => c.toNat < 128
  let replaced := ascii.map fun c => if c = '/' then ' ' else c
  let words := splitWsAux replaced []
  let joined := List.intercalate ['_'] words
  String.mk (stripDotUnderscore (joined.filter keepChar))

/-- A multipart file part as werkzeug's `FileStorage` exposes it to `app.py`:
only the client-supplied filename matters to the handler's control flow. -/
structure FileStorage where
  filename : String
deriving Repr, DecidableEq

/-- werkzeug `FileStorage.__bool__`: the object is truthy iff its filename is
a non-empty string. This is what `if file:` tests. -/
def fileTruthy (f : FileStorage) : Bool := f.filename ≠ ""

/-- A POST `/predict` request: the optional multipart field `image`. -/
structure Request where
  image : Option FileStorage
deriving Repr, DecidableEq

/-- The loaded YOLO model as `app.py` reads it: only its id→name table
(`model.names`) enters the response; inference output comes from `Env`. -/
structure YoloModel where
  names : List (Nat × String)
deriving Repr, DecidableEq

/-- One request's interaction with the outside world: the clock
(`int(time.time())`), the uuid draw (`str(uuid.uuid4())[:8]`), and the outcome
of each fallible step of the try-block, in program order: `file.save`,
`model.predict`, `results[0].plot()`, and the result image save.
`Except.error msg` means the step raised an exception with `str(e) = msg`;
a successful `model.predict` yields the detections' class ids
(`int(box.cls[0])` for each box, in order, `[]` when `boxes` is `None` or
empty). `removeFails` makes the cleanup `os.remove` raise; `fileSize` is
`os.path.getsize` of the stored upload. -/
structure Env where
  timestamp : Nat
  token : String
  saveResult : Except String Unit
  inferResult : Except String (List Nat)
  plotResult : Except String Unit
  resultSaveResult : Except String Unit
  fileSize : Nat
  removeFails : Bool
deriving Repr

/-- Observable filesystem/model effects of one predict call: whether
`model.predict` was invoked, which files were written in the uploads and
results directories, and which were removed by the cleanup handler. -/
structure Effects where
  modelInvoked : Bool
  uploadWrites : List String
  resultWrites : List String
  removed : List String
deriving Repr, DecidableEq

/-- The effects of a call that never touches the model or the disk. -/
def noEffects : Effects := ⟨false, [], [], []⟩

/-- An HTTP response: JSON body plus status code. -/
structure Response where
  body : JVal
  code : Nat
deriving Repr

def UPLOAD_FOLDER : String := "static/uploads"

def RESULT_FOLDER : String := "static/results"

/-- The extension allow-list, in the source's literal order (the source holds
it in a Python `set`; only membership and the joined listing are used). -/
def allowed_extensions : List String :=
  ["png", "jpg", "jpeg", "gif", "bmp", "tiff", "webp"]

/-- The body shape `jsonify({"error": msg, "status": "error"})`. -/
def errBody (msg : String) : JVal :=
  .obj [("error", .str msg), ("status", .str "error")]

/-- `file.filename.rsplit('.', 1)[-1].lower() if '.' in file.filename else ''`. -/
def fileExt (name : String) : String :=
  if hasDot name then pyLower (afterLastDot name) else ""

/-- `class_names.get(class_id, f"Class_{class_id}")`. -/
def lookupName (names : List (Nat × String)) (i : Nat) : String :=
  match names.find? fun p => p.1 = i with
  | some p => p.2
  | none => "Class_" ++ toString i

/-- `detection_stats[class_name] = detection_stats.get(class_name, 0) + 1` on
an insertion-ordered association list (Python dict semantics). -/
def bumpCount (stats : List (String × Nat)) (name : String) : List (String × Nat) :=
  if stats.any fun p => p.1 = name then
    stats.map fun p => if p.1 = name then (p.1, p.2 + 1) else p
  else stats ++ [(name, 1)]

/-- The counting loop over `results[0].boxes`. -/
def countStats (names : List (Nat × String)) (dets : List Nat) : List (String × Nat) :=
  dets.foldl (fun acc i => bumpCount acc (lookupName names i)) []

/-- `sum(detection_stats.values())`. -/
def sumVals (stats : List (String × Nat)) : Nat :=
  stats.foldl (fun acc p => acc + p.2) 0

/-- `detection_stats.get(name, 0)`. -/
def getCount (stats : List (String × Nat)) (name : String) : Nat :=
  match stats.find? fun p => p.1 = name with
  | some p => p.2
  | none => 0

/-- The body of the handler's `try:` block, from unique-name generation to the
success response, with the `except:` cleanup-and-500 applied at the first step
that raises. `uploaded_filepath` is bound before `file.save`, so on a save
failure it is in `locals()` but the file does not exist and nothing is
removed; after a successful save, `os.path.exists` holds and cleanup removes
the upload unless `os.remove` itself raises (which is swallowed). -/
def tryBlock (m : YoloModel) (file : FileStorage) (env : Env) : Response × Effects :=
  let unique_id := env.token
  let timestamp := toString env.timestamp
  let base_name := secure_filename (beforeLastDot file.filename)
  let extension := pyLower (afterLastDot file.filename)
  let unique_filename := base_name ++ "_" ++ timestamp ++ "_" ++ unique_id ++ "." ++ extension
  let uploaded_filepath := UPLOAD_FOLDER ++ "/" ++ unique_filename
  let cleanupRemoved : List String := if env.removeFails then [] else [uploaded_filepath]
  match env.saveResult with
  | .error e =>
    (⟨errBody ("An error occurred during object detection: " ++ e), 500⟩,
     ⟨false, [], [], []⟩)
  | .ok _ =>
    match env.inferResult with
    | .error e =>
      (⟨errBody ("An error occurred during object detection: " ++ e), 500⟩,
       ⟨true, [uploaded_filepath], [], cleanupRemoved⟩)
    | .ok dets =>
      match env.plotResult with
      | .error e =>
        (⟨errBody ("An error occurred during object detection: " ++ e), 500⟩,
         ⟨true, [uploaded_filepath], [], cleanupRemoved⟩)
      | .ok _ =>
        let detection_stats := countStats m.names dets
        let result_filename :=
          "result_" ++ base_name ++ "_" ++ timestamp ++ "_" ++ unique_id ++ "." ++ extension
        let result_path := RESULT_FOLDER ++ "/" ++ result_filename
        match env.resultSaveResult with
        | .error e =>
          (⟨errBody ("An error occurred during object detection: " ++ e), 500⟩,
           ⟨true, [uploaded_filepath], [], cleanupRemoved⟩)
        | .ok _ =>
          (⟨.obj [
              ("status", .str "success"),
              ("uploaded_image_url", .str ("/static/uploads/" ++ unique_filename)),
              ("result_image_url", .str ("/static/results/" ++ result_filename)),
              ("detection_stats", .obj (detection_stats.map fun p => (p.1, JVal.num p.2))),
              ("total_detections",
                .num (if detection_stats.isEmpty then 0 else sumVals detection_stats)),
              ("filename", .str unique_filename),
              ("timestamp", .str timestamp),
              ("file_size", .num env.fileSize)], 200⟩,
           ⟨true, [uploaded_filepath], [result_path], []⟩)

/-- The `/predict` handler. `model` is the process-wide handle (`none` when
the startup load failed); `env` supplies this request's interaction with the
world. Returns the HTTP response and the observable effects. -/
def predict (model : Option YoloModel) (req : Request) (env : Env) : Response × Effects :=
  match model with
  | none =>
    (⟨errBody "Deep learning model not loaded. Please check server logs for details.", 500⟩,
     noEffects)
  | some m =>
    match req.image with
    | none => (⟨errBody "No image file part in the request.", 400⟩, noEffects)
    | some file =>
      if file.filename = "" then
        (⟨errBody "No selected file.", 400⟩, noEffects)
      else
        let file_extension := fileExt file.filename
        if (allowed_extensions.contains file_extension) = false then
          (⟨errBody ("Invalid file type. Supported formats: " ++
              String.intercalate ", " allowed_extensions), 400⟩, noEffects)
        else
          if fileTruthy file then tryBlock m file env
          else
            (⟨errBody "Something went wrong during file upload or processing.", 500⟩,
             noEffects)

/-- The `/health` handler. -/
def health_check (model : Option YoloModel) : Response :=
  ⟨.obj [
     ("status", .str (if model.isSome then "healthy" else "degraded")),
     ("model_loaded", .bool model.isSome),
     ("service", .str "SkyVision Object Detection API")], 200⟩

/-- Look a key up in a JSON object (`none` on non-objects). -/
def jGet (v : JVal) (k : String) : Option JVal :=
  match v with
  | .obj kvs => (kvs.find? fun p => p.1 = k).map fun p => p.2
  | _ => none

/-- Modelled from the spec's words for the Filename Allocator contract, for
comparison with the code: compose
`{sanitized_base}_{unix_timestamp}_{8-char_random_token}.{original_extension}`
with the extension taken verbatim from the original filename. -/
def uniqueFilenameSpec (origName : String) (ts : Nat) (tok : String) : String :=
  secure_filename (beforeLastDot origName) ++ "_" ++ toString ts ++ "_" ++ tok ++
    "." ++ afterLastDot origName

/-- The message of the first step of the try-block that raises, if any. -/
def firstError (env : Env) : Option String :=
  match env.saveResult with
  | .error e => some e
  | .ok _ =>
    match env.inferResult with
    | .error e => some e
    | .ok _ =>
      match env.plotResult with
      | .error e => some e
      | .ok _ =>
        match env.resultSaveResult with
        | .error e => some e
        | .ok _ => none

/-- The allocated unique filename, as the try-block composes it. -/
def uniqueName (f : FileStorage) (env : Env) : String :=
  secure_filename (beforeLastDot f.filename) ++ "_" ++ toString env.timestamp ++ "_" ++
    env.token ++ "." ++ pyLower (afterLastDot f.filename)

theorem pyLowerChar_toNat_of_upper (c : Char) (h : 'A' ≤ c ∧ c ≤ 'Z') :
    (pyLowerChar c).toNat = c.toNat + 32 := by
  have hle : c.toNat ≤ 90 := h.2
  have hv : (c.toNat + 32).isValidChar := Or.inl (by omega)
  unfold pyLowerChar
  rw [if_pos h, Char.ofNat, dif_pos hv]
  simp [Char.ofNatAux, Char.toNat, UInt32.toNat]

theorem pyLowerChar_ne_self_of_upper (c : Char) (h : 'A' ≤ c ∧ c ≤ 'Z') :
    pyLowerChar c ≠ c := by
  intro he
  have ht := pyLowerChar_toNat_of_upper c h
  rw [he] at ht
  omega

theorem pyLowerChar_eq_dot_iff (c : Char) : pyLowerChar c = '.' ↔ c = '.' := by
  constructor
  · intro he
    by_cases h : 'A' ≤ c ∧ c ≤ 'Z'
    · exfalso
      have ht := pyLowerChar_toNat_of_upper c h
      rw [he] at ht
      have hge : 65 ≤ c.toNat := h.1
      have h46 : ('.' : Char).toNat = 46 := rfl
      rw [h46] at ht
      omega
    · rw [pyLowerChar, if_neg h] at he
      exact he
  · intro he
    subst he
    rfl

theorem map_pyLowerChar_not_dot (l : List Char) (h : '.' ∉ l) :
    '.' ∉ l.map pyLowerChar := by
  intro hm
  rcases List.mem_map.1 hm with ⟨c, hc, he⟩
  exact h ((pyLowerChar_eq_dot_iff c).1 he ▸ hc)

theorem map_pyLowerChar_ne_of_upper (l : List Char)
    (h : ∃ c ∈ l, 'A' ≤ c ∧ c ≤ 'Z') : l.map pyLowerChar ≠ l := by
  induction l with
  | nil => rcases h with ⟨c, hc, _⟩; cases hc
  | cons a as ih =>
    rcases h with ⟨c, hc, hu⟩
    rcases List.mem_cons.1 hc with hc | hc
    · subst hc
      intro he
      exact pyLowerChar_ne_self_of_upper c hu (List.cons.injEq _ _ _ _ ▸ he).1
    · intro he
      exact ih ⟨c, hc, hu⟩ (List.cons.injEq _ _ _ _ ▸ he).2

theorem lastDotSplit_eq_none (l : List Char) (h : '.' ∉ l) :
    lastDotSplit l = none := by
  induction l with
  | nil => rfl
  | cons a as ih =>
    have ha : a ≠ '.' := fun he => h (he ▸ List.mem_cons_self a as)
    have has : '.' ∉ as := fun hm => h (List.mem_cons_of_mem a hm)
    rw [lastDotSplit, ih has]
    simp [ha]

theorem not_dot_of_lastDotSplit_eq_none (l : List Char)
    (h : lastDotSplit l = none) : '.' ∉ l := by
  induction l with
  | nil => simp
  | cons c cs ih =>
    rw [lastDotSplit] at h
    cases hcs : lastDotSplit cs with
    | some p => rw [hcs] at h; cases h
    | none =>
      rw [hcs] at h
      by_cases hc : c = '.'
      · simp [hc] at h
      · intro hm
        rcases List.mem_cons.1 hm with hm | hm
        · exact hc hm.symm
        · exact ih hcs hm

theorem lastDotSplit_not_dot_right (l b a : List Char)
    (h : lastDotSplit l = some (b, a)) : '.' ∉ a := by
  induction l generalizing b a with
  | nil => simp [lastDotSplit] at h
  | cons c cs ih =>
    rw [lastDotSplit] at h
    cases hcs : lastDotSplit cs with
    | some p =>
      rw [hcs] at h
      simp at h
      exact h.2 ▸ ih p.1 p.2 (by rw [hcs])
    | none =>
      rw [hcs] at h
      by_cases hc : c = '.'
      · simp [hc] at h
        exact h.2 ▸ not_dot_of_lastDotSplit_eq_none cs hcs
      · simp [hc] at h


theorem string_data_append (a b : String) : (a ++ b).data = a.data ++ b.data := rfl

theorem lastDotSplit_append_dot (x e : List Char) (h : '.' ∉ e) :
    lastDotSplit (x ++ '.' :: e) = some (x, e) := by
  induction x with
  | nil =>
    rw [List.nil_append, lastDotSplit, lastDotSplit_eq_none e h]
    simp
  | cons c cs ih =>
    rw [List.cons_append, lastDotSplit, ih]

theorem afterLastDot_mk_append (x e : List Char) (h : '.' ∉ e) :
    afterLastDot (String.mk (x ++ '.' :: e)) = String.mk e := by
  unfold afterLastDot
  rw [show (String.mk (x ++ '.' :: e)).data = x ++ '.' :: e from rfl,
      lastDotSplit_append_dot x e h]

theorem predict_eq_tryBlock (m : YoloModel) (f : FileStorage) (env : Env)
    (hne : f.filename ≠ "")
    (hext : allowed_extensions.contains (fileExt f.filename) = true) :
    predict (some m) ⟨some f⟩ env = tryBlock m f env := by
  have hmem : fileExt f.filename ∈ allowed_extensions := by simpa using hext
  unfold predict
  simp [hne, fileTruthy, hmem]

theorem tryBlock_code_cases (m : YoloModel) (f : FileStorage) (env : Env) :
    (tryBlock m f env).1.code = 200 ∨
    ((tryBlock m f env).1.code = 500 ∧ ∃ e, (tryBlock m f env).1.body =
      errBody ("An error occurred during object detection: " ++ e)) := by
  unfold tryBlock
  cases hs : env.saveResult with
  | error e => right; exact ⟨rfl, e, rfl⟩
  | ok u =>
    cases hi : env.inferResult with
    | error e => right; exact ⟨rfl, e, rfl⟩
    | ok dets =>
      cases hp : env.plotResult with
      | error e => right; exact ⟨rfl, e, rfl⟩
      | ok u2 =>
        cases hr : env.resultSaveResult with
        | error e => right; exact ⟨rfl, e, rfl⟩
        | ok u3 => left; rfl

theorem string_append_reassoc (b t k e : String) :
    "/static/results/" ++ ("result_" ++ b ++ "_" ++ t ++ "_" ++ k ++ "." ++ e) =
      "/static/results/result_" ++ (b ++ "_" ++ t ++ "_" ++ k ++ "." ++ e) := by
  apply String.ext
  simp only [string_data_append, List.append_assoc]
  rw [← List.append_assoc "/static/results/".data "result_".data]
  norm_num

theorem predict_no_part (m : YoloModel) (env : Env) :
    predict (some m) ⟨none⟩ env =
      (⟨errBody "No image file part in the request.", 400⟩, noEffects) := rfl

theorem predict_empty_name (m : YoloModel) (f : FileStorage) (env : Env)
    (he : f.filename = "") :
    predict (some m) ⟨some f⟩ env =
      (⟨errBody "No selected file.", 400⟩, noEffects) := by
  unfold predict
  simp [he]

theorem predict_bad_ext (m : YoloModel) (f : FileStorage) (env : Env)
    (hne : f.filename ≠ "")
    (hext : allowed_extensions.contains (fileExt f.filename) = false) :
    predict (some m) ⟨some f⟩ env =
      (⟨errBody ("Invalid file type. Supported formats: " ++
          String.intercalate ", " allowed_extensions), 400⟩, noEffects) := by
  have hnm : fileExt f.filename ∉ allowed_extensions := by simpa using hext
  unfold predict
  simp [hne, hnm]

/-- C3: while the model handle is absent every POST /predict request gets a
500 with the structured error body, independently of the request and of the
environment (so before any validation), with no model invocation and no file
written to the uploads or results directories. -/
theorem model_absent_predict_500 (req : Request) (env : Env) :
    predict none req env =
      (⟨errBody "Deep learning model not loaded. Please check server logs for details.",
         500⟩, noEffects) := rfl

/-- C7: GET /health always returns 200, with status "healthy" and
model_loaded true exactly when the model handle is present, and status
"degraded" and model_loaded false exactly when it is absent. -/
theorem health_endpoint_spec (model : Option YoloModel) :
    (health_check model).code = 200 ∧
    (jGet (health_check model).body "status" = some (.str "healthy") ↔
      model.isSome = true) ∧
    (jGet (health_check model).body "model_loaded" = some (.bool true) ↔
      model.isSome = true) ∧
    (jGet (health_check model).body "status" = some (.str "degraded") ↔
      model = none) ∧
    (jGet (health_check model).body "model_loaded" = some (.bool false) ↔
      model = none) := by
  cases model <;> simp [health_check, jGet]

/-- C7 witness: the health endpoint evaluated at a present and at an absent
model handle. -/
theorem health_endpoint_spec_witness :
    (health_check (some ⟨[]⟩)).code = 200 ∧
    jGet (health_check (some ⟨[]⟩)).body "status" = some (.str "healthy") ∧
    jGet (health_check none).body "status" = some (.str "degraded") :=
  ⟨(health_endpoint_spec (some ⟨[]⟩)).1,
   (health_endpoint_spec (some ⟨[]⟩)).2.1.2 rfl,
   (health_endpoint_spec none).2.2.2.1.2 rfl⟩

/-- C8: every non-success response of the predict handler (each 400 and each
500 exit) carries a JSON body of the shape `{error: msg, status: "error"}`;
the handler is a function returning a single synchronous response, so every
failure is terminal for its request. -/
theorem error_body_shape (model : Option YoloModel) (req : Request) (env : Env) :
    (predict model req env).1.code = 200 ∨
    (((predict model req env).1.code = 400 ∨ (predict model req env).1.code = 500) ∧
      ∃ msg, (predict model req env).1.body = errBody msg) := by
  obtain ⟨img⟩ := req
  cases model with
  | none =>
    right
    exact ⟨Or.inr rfl, "Deep learning model not loaded. Please check server logs for details.",
      rfl⟩
  | some m =>
    cases img with
    | none => right; exact ⟨Or.inl rfl, "No image file part in the request.", rfl⟩
    | some f =>
      by_cases hne : f.filename = ""
      · right
        rw [predict_empty_name m f env hne]
        exact ⟨Or.inl rfl, "No selected file.", rfl⟩
      · by_cases hext : allowed_extensions.contains (fileExt f.filename) = true
        · rw [predict_eq_tryBlock m f env hne hext]
          rcases tryBlock_code_cases m f env with h | ⟨hc, e, hb⟩
          · left; exact h
          · right; exact ⟨Or.inr hc, _, hb⟩
        · right
          have hext2 : allowed_extensions.contains (fileExt f.filename) = false := by
            simpa using hext
          rw [predict_bad_ext m f env hne hext2]
          exact ⟨Or.inl rfl, _, rfl⟩

/-- C9: for every request that passes the extension check the file object's
truthiness test succeeds (its filename is non-empty), so the handler exits
through the try/except block and the final fallback 500 branch is dead. -/
theorem fallback_branch_unreachable (m : YoloModel) (f : FileStorage) (env : Env)
    (hne : f.filename ≠ "")
    (hext : allowed_extensions.contains (fileExt f.filename) = true) :
    fileTruthy f = true ∧ predict (some m) ⟨some f⟩ env = tryBlock m f env := by
  constructor
  · simpa [fileTruthy] using hne
  · exact predict_eq_tryBlock m f env hne hext

/-- C9 witness: a concrete request that passes the extension check and takes
the try-block path. -/
theorem fallback_branch_unreachable_witness :
    fileTruthy ⟨"cat.jpg"⟩ = true ∧
    predict (some ⟨[]⟩) ⟨some ⟨"cat.jpg"⟩⟩
        ⟨1700000000, "abcd1234", Except.ok (), Except.ok [], Except.ok (),
         Except.ok (), 2048, false⟩ =
      tryBlock ⟨[]⟩ ⟨"cat.jpg"⟩
        ⟨1700000000, "abcd1234", Except.ok (), Except.ok [], Except.ok (),
         Except.ok (), 2048, false⟩ :=
  fallback_branch_unreachable ⟨[]⟩ ⟨"cat.jpg"⟩ _ (by decide) (by decide)

theorem ite_isEmpty_sumVals (stats : List (String × Nat)) :
    (if stats.isEmpty then 0 else sumVals stats) = sumVals stats := by
  cases stats <;> simp [sumVals]

/-- C1 counterexample: for the upload `img.PNG` the handler allocates
`img_1700000000_abcd1234.png` (lower-cased extension), which is not the
spec-composed name with the verbatim original extension
`img_1700000000_abcd1234.PNG`. -/
theorem allocator_verbatim_ext_counterexample :
    jGet (predict (some ⟨[]⟩) ⟨some ⟨"img.PNG"⟩⟩
        ⟨1700000000, "abcd1234", Except.ok (), Except.ok [], Except.ok (),
         Except.ok (), 2048, false⟩).1.body "filename" =
      some (.str "img_1700000000_abcd1234.png") ∧
    uniqueFilenameSpec "img.PNG" 1700000000 "abcd1234" =
      "img_1700000000_abcd1234.PNG" ∧
    some (JVal.str "img_1700000000_abcd1234.png") ≠
      some (JVal.str (uniqueFilenameSpec "img.PNG" 1700000000 "abcd1234")) := by
  refine ⟨by rfl, by decide, ?_⟩
  rw [show uniqueFilenameSpec "img.PNG" 1700000000 "abcd1234" =
      "img_1700000000_abcd1234.PNG" by decide]
  intro h
  simp at h

/-- C1 (amended): for every accepted upload the allocated unique filename is
`{sanitized_base}_{unix_timestamp}_{token}.{ext}` where `ext` is the
lower-cased original extension, and the result image's filename is `result_`
++ that unique filename, reusing identical timestamp, token and extension, so
the artifacts are pairable by suffix match. -/
theorem allocator_composition_lowercase (m : YoloModel) (f : FileStorage)
    (env : Env) (dets : List Nat)
    (hne : f.filename ≠ "")
    (hext : allowed_extensions.contains (fileExt f.filename) = true)
    (hs : env.saveResult = Except.ok ()) (hi : env.inferResult = Except.ok dets)
    (hp : env.plotResult = Except.ok ()) (hr : env.resultSaveResult = Except.ok ()) :
    jGet (predict (some m) ⟨some f⟩ env).1.body "filename" =
      some (.str (uniqueName f env)) ∧
    jGet (predict (some m) ⟨some f⟩ env).1.body "result_image_url" =
      some (.str ("/static/results/result_" ++ uniqueName f env)) := by
  rw [predict_eq_tryBlock m f env hne hext]
  unfold tryBlock
  rw [hs, hi, hp, hr]
  refine ⟨?_, ?_⟩ <;> simp [jGet, uniqueName, string_append_reassoc]

/-- C1 witness: the amended composition evaluated on a concrete accepted
upload. -/
theorem allocator_composition_lowercase_witness :
    jGet (predict (some ⟨[]⟩) ⟨some ⟨"cat.JPG"⟩⟩
        ⟨1700000000, "abcd1234", Except.ok (), Except.ok [], Except.ok (),
         Except.ok (), 2048, false⟩).1.body "filename" =
      some (.str (uniqueName ⟨"cat.JPG"⟩
        ⟨1700000000, "abcd1234", Except.ok (), Except.ok [], Except.ok (),
         Except.ok (), 2048, false⟩)) ∧
    uniqueName ⟨"cat.JPG"⟩
        ⟨1700000000, "abcd1234", Except.ok (), Except.ok [], Except.ok (),
         Except.ok (), 2048, false⟩ = "cat_1700000000_abcd1234.jpg" :=
  ⟨(allocator_composition_lowercase ⟨[]⟩ ⟨"cat.JPG"⟩ _ [] (by decide) (by decide)
      rfl rfl rfl rfl).1, by decide⟩

/-- C5: every successful predict response is a 200 whose JSON body contains
exactly the status flag, both public URLs, the class-to-count mapping, the
total detection count equal to the sum of the mapping's values (zero when
empty, since `sumVals [] = 0`), the allocated filename, the timestamp
component, and the stored upload's byte size. -/
theorem success_payload_shape (m : YoloModel) (f : FileStorage) (env : Env)
    (dets : List Nat)
    (hne : f.filename ≠ "")
    (hext : allowed_extensions.contains (fileExt f.filename) = true)
    (hs : env.saveResult = Except.ok ()) (hi : env.inferResult = Except.ok dets)
    (hp : env.plotResult = Except.ok ()) (hr : env.resultSaveResult = Except.ok ()) :
    (predict (some m) ⟨some f⟩ env).1.code = 200 ∧
    (predict (some m) ⟨some f⟩ env).1.body = .obj [
      ("status", .str "success"),
      ("uploaded_image_url", .str ("/static/uploads/" ++ uniqueName f env)),
      ("result_image_url", .str ("/static/results/result_" ++ uniqueName f env)),
      ("detection_stats", .obj ((countStats m.names dets).map fun p => (p.1, JVal.num p.2))),
      ("total_detections", .num (sumVals (countStats m.names dets))),
      ("filename", .str (uniqueName f env)),
      ("timestamp", .str (toString env.timestamp)),
      ("file_size", .num env.fileSize)] := by
  rw [predict_eq_tryBlock m f env hne hext]
  unfold tryBlock
  rw [hs, hi, hp, hr]
  refine ⟨rfl, ?_⟩
  simp only [ite_isEmpty_sumVals]
  simp [uniqueName, string_append_reassoc]

/-- C5 witness: the success payload evaluated on a concrete accepted upload
with two detected classes. -/
theorem success_payload_shape_witness :
    (predict (some ⟨[(0, "car"), (1, "truck")]⟩) ⟨some ⟨"cat.jpg"⟩⟩
        ⟨1700000000, "abcd1234", Except.ok (), Except.ok [0, 1, 0], Except.ok (),
         Except.ok (), 2048, false⟩).1.code = 200 ∧
    sumVals (countStats [(0, "car"), (1, "truck")] [0, 1, 0]) = 3 :=
  ⟨(success_payload_shape ⟨[(0, "car"), (1, "truck")]⟩ ⟨"cat.jpg"⟩ _ [0, 1, 0]
      (by decide) (by decide) rfl rfl rfl rfl).1, rfl⟩

/-- C2: with a loaded model the validator answers 400 with a distinct
human-readable reason, no model invocation and no disk write, exactly when
the multipart field is absent, the filename is empty, or the
(case-insensitive) extension is outside the allow-list; the unsupported-type
message names every allowed extension. -/
theorem validator_rejects_exactly (m : YoloModel) (req : Request) (env : Env) :
    (req.image = none →
      predict (some m) req env =
        (⟨errBody "No image file part in the request.", 400⟩, noEffects)) ∧
    (∀ f, req.image = some f → f.filename = "" →
      predict (some m) req env = (⟨errBody "No selected file.", 400⟩, noEffects)) ∧
    (∀ f, req.image = some f → f.filename ≠ "" →
      allowed_extensions.contains (fileExt f.filename) = false →
      predict (some m) req env =
        (⟨errBody ("Invalid file type. Supported formats: " ++
            String.intercalate ", " allowed_extensions), 400⟩, noEffects)) ∧
    (∀ e ∈ allowed_extensions, ∃ s t : String,
      "Invalid file type. Supported formats: " ++
          String.intercalate ", " allowed_extensions = s ++ e ++ t) ∧
    (("No image file part in the request." : String) ≠ "No selected file." ∧
      ("No image file part in the request." : String) ≠
        "Invalid file type. Supported formats: " ++
          String.intercalate ", " allowed_extensions ∧
      ("No selected file." : String) ≠
        "Invalid file type. Supported formats: " ++
          String.intercalate ", " allowed_extensions) ∧
    ((predict (some m) req env).1.code = 400 →
      req.image = none ∨ ∃ f, req.image = some f ∧
        (f.filename = "" ∨ allowed_extensions.contains (fileExt f.filename) = false)) := by
  obtain ⟨img⟩ := req
  refine ⟨?_, ?_, ?_, ?_, ?_, ?_⟩
  · intro h
    cases h
    exact predict_no_part m env
  · intro f hf he
    cases hf
    exact predict_empty_name m f env he
  · intro f hf hne hext
    cases hf
    exact predict_bad_ext m f env hne hext
  · intro e he
    fin_cases he
    · exact ⟨"Invalid file type. Supported formats: ",
        ", jpg, jpeg, gif, bmp, tiff, webp", by decide⟩
    · exact ⟨"Invalid file type. Supported formats: png, ",
        ", jpeg, gif, bmp, tiff, webp", by decide⟩
    · exact ⟨"Invalid file type. Supported formats: png, jpg, ",
        ", gif, bmp, tiff, webp", by decide⟩
    · exact ⟨"Invalid file type. Supported formats: png, jpg, jpeg, ",
        ", bmp, tiff, webp", by decide⟩
    · exact ⟨"Invalid file type. Supported formats: png, jpg, jpeg, gif, ",
        ", tiff, webp", by decide⟩
    · exact ⟨"Invalid file type. Supported formats: png, jpg, jpeg, gif, bmp, ",
        ", webp", by decide⟩
    · exact ⟨"Invalid file type. Supported formats: png, jpg, jpeg, gif, bmp, tiff, ",
        "", by decide⟩
  · exact ⟨by decide, by decide, by decide⟩
  · intro hc
    cases img with
    | none => exact Or.inl rfl
    | some f =>
      right
      refine ⟨f, rfl, ?_⟩
      by_cases hne : f.filename = ""
      · exact Or.inl hne
      · by_cases hext : allowed_extensions.contains (fileExt f.filename) = true
        · exfalso
          rw [predict_eq_tryBlock m f env hne hext] at hc
          rcases tryBlock_code_cases m f env with h | ⟨h, _⟩ <;> rw [h] at hc <;> cases hc
        · exact Or.inr (by simpa using hext)

/-- C2 witness: the three rejection branches evaluated on concrete requests
(no field, empty filename, `notes.txt`). -/
theorem validator_rejects_exactly_witness :
    predict (some ⟨[]⟩) ⟨none⟩
        ⟨0, "t0t0t0t0", Except.ok (), Except.ok [], Except.ok (), Except.ok (), 0, false⟩ =
      (⟨errBody "No image file part in the request.", 400⟩, noEffects) ∧
    predict (some ⟨[]⟩) ⟨some ⟨""⟩⟩
        ⟨0, "t0t0t0t0", Except.ok (), Except.ok [], Except.ok (), Except.ok (), 0, false⟩ =
      (⟨errBody "No selected file.", 400⟩, noEffects) ∧
    predict (some ⟨[]⟩) ⟨some ⟨"notes.txt"⟩⟩
        ⟨0, "t0t0t0t0", Except.ok (), Except.ok [], Except.ok (), Except.ok (), 0, false⟩ =
      (⟨errBody ("Invalid file type. Supported formats: " ++
          String.intercalate ", " allowed_extensions), 400⟩, noEffects) :=
  ⟨(validator_rejects_exactly ⟨[]⟩ ⟨none⟩ _).1 rfl,
   (validator_rejects_exactly ⟨[]⟩ ⟨some ⟨""⟩⟩ _).2.1 ⟨""⟩ rfl rfl,
   (validator_rejects_exactly ⟨[]⟩ ⟨some ⟨"notes.txt"⟩⟩ _).2.2.1 ⟨"notes.txt"⟩ rfl
     (by decide) (by decide)⟩

/-- C4: any exception raised after validation (save, inference, render, or
persist) is caught: the response is a 500 whose body carries the exception's
message (not a stack trace), the saved raw upload is deleted exactly when it
was written and the deletion itself does not raise, no result file is
recorded, and the response body does not depend on whether the cleanup
deletion raised (deletion errors are swallowed). -/
theorem exception_cleanup_500 (m : YoloModel) (f : FileStorage) (env : Env)
    (e : String)
    (hne : f.filename ≠ "")
    (hext : allowed_extensions.contains (fileExt f.filename) = true)
    (hfail : firstError env = some e) :
    (predict (some m) ⟨some f⟩ env).1.code = 500 ∧
    (predict (some m) ⟨some f⟩ env).1.body =
      errBody ("An error occurred during object detection: " ++ e) ∧
    (predict (some m) ⟨some f⟩ env).2.removed =
      (if env.saveResult.isOk = true ∧ env.removeFails = false
       then [UPLOAD_FOLDER ++ "/" ++ uniqueName f env] else []) ∧
    (predict (some m) ⟨some f⟩ env).2.resultWrites = [] ∧
    ∀ b : Bool,
      (predict (some m) ⟨some f⟩ {env with removeFails := b}).1.body =
        (predict (some m) ⟨some f⟩ env).1.body := by
  obtain ⟨ts, tok, sv, inf, pl, rs, fs, rm⟩ := env
  rw [predict_eq_tryBlock m f _ hne hext]
  cases sv with
  | error es =>
    have hee : es = e := by simpa [firstError] using hfail
    subst hee
    refine ⟨rfl, rfl, ?_, rfl, ?_⟩
    · simp [tryBlock, Except.isOk, Except.toBool]
    · intro b
      rw [predict_eq_tryBlock m f _ hne hext]
      rfl
  | ok u =>
    cases u
    cases inf with
    | error es =>
      have hee : es = e := by simpa [firstError] using hfail
      subst hee
      refine ⟨rfl, rfl, ?_, rfl, ?_⟩
      · cases rm <;> simp [tryBlock, uniqueName, Except.isOk, Except.toBool]
      · intro b
        rw [predict_eq_tryBlock m f _ hne hext]
        cases b <;> rfl
    | ok dets =>
      cases pl with
      | error es =>
        have hee : es = e := by simpa [firstError] using hfail
        subst hee
        refine ⟨rfl, rfl, ?_, rfl, ?_⟩
        · cases rm <;> simp [tryBlock, uniqueName, Except.isOk, Except.toBool]
        · intro b
          rw [predict_eq_tryBlock m f _ hne hext]
          cases b <;> rfl
      | ok u2 =>
        cases u2
        cases rs with
        | error es =>
          have hee : es = e := by simpa [firstError] using hfail
          subst hee
          refine ⟨rfl, rfl, ?_, rfl, ?_⟩
          · cases rm <;> simp [tryBlock, uniqueName, Except.isOk, Except.toBool]
          · intro b
            rw [predict_eq_tryBlock m f _ hne hext]
            cases b <;> rfl
        | ok u3 =>
          exfalso
          simp [firstError] at hfail

/-- C4 witness: a concrete inference failure is caught, answered with a 500
carrying the exception message, and the stored upload is removed. -/
theorem exception_cleanup_500_witness :
    (predict (some ⟨[]⟩) ⟨some ⟨"cat.jpg"⟩⟩
        ⟨1700000000, "abcd1234", Except.ok (), Except.error "boom", Except.ok (),
         Except.ok (), 2048, false⟩).1.code = 500 ∧
    (predict (some ⟨[]⟩) ⟨some ⟨"cat.jpg"⟩⟩
        ⟨1700000000, "abcd1234", Except.ok (), Except.error "boom", Except.ok (),
         Except.ok (), 2048, false⟩).1.body =
      errBody ("An error occurred during object detection: " ++ "boom") ∧
    (predict (some ⟨[]⟩) ⟨some ⟨"cat.jpg"⟩⟩
        ⟨1700000000, "abcd1234", Except.ok (), Except.error "boom", Except.ok (),
         Except.ok (), 2048, false⟩).2.removed =
      [UPLOAD_FOLDER ++ "/" ++ uniqueName ⟨"cat.jpg"⟩
        ⟨1700000000, "abcd1234", Except.ok (), Except.error "boom", Except.ok (),
         Except.ok (), 2048, false⟩] := by
  have h := exception_cleanup_500 ⟨[]⟩ ⟨"cat.jpg"⟩
    ⟨1700000000, "abcd1234", Except.ok (), Except.error "boom", Except.ok (),
     Except.ok (), 2048, false⟩ "boom" (by decide) (by decide) rfl
  exact ⟨h.1, h.2.1, h.2.2.1.trans (by rfl)⟩

theorem getCount_cons (p : String × Nat) (ps : List (String × Nat)) (n : String) :
    getCount (p :: ps) n = if p.1 = n then p.2 else getCount ps n := by
  by_cases hp : p.1 = n
  · simp [getCount, List.find?, hp]
  · simp [getCount, List.find?, hp]

theorem getCount_map_ne (stats : List (String × Nat)) (name n : String)
    (h : n ≠ name) :
    getCount (stats.map fun p => if p.1 = name then (p.1, p.2 + 1) else p) n =
      getCount stats n := by
  induction stats with
  | nil => rfl
  | cons p ps ih =>
    rw [List.map_cons, getCount_cons, getCount_cons]
    by_cases hp : p.1 = name
    · rw [if_pos hp]
      have hpn : p.1 ≠ n := fun he => h (he.symm.trans hp)
      simp only [if_neg hpn]
      exact ih
    · rw [if_neg hp]
      by_cases hpn : p.1 = n
      · simp [hpn]
      · simp [hpn, ih]

theorem getCount_map_self (stats : List (String × Nat)) (name : String)
    (h : (stats.any fun p => p.1 = name) = true) :
    getCount (stats.map fun p => if p.1 = name then (p.1, p.2 + 1) else p) name =
      getCount stats name + 1 := by
  induction stats with
  | nil => simp at h
  | cons p ps ih =>
    rw [List.map_cons, getCount_cons, getCount_cons]
    by_cases hp : p.1 = name
    · rw [if_pos hp]
      simp [hp]
    · rw [if_neg hp]
      have hps : (ps.any fun q => q.1 = name) = true := by simpa [hp] using h
      simp only [if_neg hp]
      exact ih hps

theorem getCount_append_single (stats : List (String × Nat)) (name n : String)
    (h : (stats.any fun p => p.1 = name) = false) :
    getCount (stats ++ [(name, 1)]) n =
      getCount stats n + (if n = name then 1 else 0) := by
  induction stats with
  | nil =>
    rw [List.nil_append, getCount_cons]
    by_cases hn : name = n
    · simp [hn, getCount]
    · have hn2 : n ≠ name := fun he => hn he.symm
      simp [hn, hn2, getCount]
  | cons p ps ih =>
    have hp : p.1 ≠ name := by
      intro he
      rw [List.any_cons, he] at h
      simp at h
    have hps : (ps.any fun q => q.1 = name) = false := by
      rw [List.any_cons] at h
      have hd : decide (p.1 = name) = false := by simp [hp]
      rw [hd] at h
      simpa using h
    rw [List.cons_append, getCount_cons, getCount_cons]
    by_cases hpn : p.1 = n
    · have hn : n ≠ name := fun he => hp (hpn.trans he)
      simp [hpn, hn]
    · simp [hpn, ih hps]

theorem getCount_bumpCount (stats : List (String × Nat)) (name n : String) :
    getCount (bumpCount stats name) n =
      getCount stats n + (if n = name then 1 else 0) := by
  unfold bumpCount
  by_cases hany : (stats.any fun p => p.1 = name) = true
  · rw [if_pos hany]
    by_cases hn : n = name
    · subst hn
      rw [if_pos rfl, getCount_map_self stats n hany]
    · rw [if_neg hn, getCount_map_ne stats name n hn]
      simp [hn]
  · rw [if_neg hany]
    have hfalse : (stats.any fun p => p.1 = name) = false := by
      cases hb : stats.any fun p => p.1 = name
      · rfl
      · exact absurd hb hany
    exact getCount_append_single stats name n hfalse

theorem getCount_countStats_aux (names : List (Nat × String)) (dets : List Nat)
    (acc : List (String × Nat)) (n : String) :
    getCount (dets.foldl (fun a i => bumpCount a (lookupName names i)) acc) n =
      getCount acc n + (dets.filter fun i => lookupName names i = n).length := by
  induction dets generalizing acc with
  | nil => simp
  | cons d ds ih =>
    rw [List.foldl_cons, ih, getCount_bumpCount]
    by_cases hd : lookupName names d = n
    · simp only [List.filter_cons, hd]
      simp
      omega
    · have hd2 : n ≠ lookupName names d := fun he => hd he.symm
      simp only [List.filter_cons]
      simp [hd, hd2]

/-- C6: every detection's class id is resolved through the model's id-to-name
table, ids absent from the table get the synthetic label `Class_{id}`, and in
the produced mapping each class's count equals the number of detections whose
resolved name is that class. -/
theorem detection_stats_spec (names : List (Nat × String)) (dets : List Nat) :
    (∀ i, (names.find? fun p => p.1 = i) = none →
      lookupName names i = "Class_" ++ toString i) ∧
    (∀ i q, (names.find? fun p => p.1 = i) = some q →
      lookupName names i = q.2) ∧
    (∀ n, getCount (countStats names dets) n =
      (dets.filter fun i => lookupName names i = n).length) := by
  refine ⟨?_, ?_, ?_⟩
  · intro i h
    simp [lookupName, h]
  · intro i q h
    simp [lookupName, h]
  · intro n
    unfold countStats
    rw [getCount_countStats_aux]
    simp [getCount]

/-- C6 witness: the stats builder on a concrete detection set with one id
missing from the table. -/
theorem detection_stats_spec_witness :
    lookupName [(0, "car")] 5 = "Class_" ++ toString 5 ∧
    getCount (countStats [(0, "car")] [0, 5, 0]) "car" =
      ([0, 5, 0].filter fun i => lookupName [(0, "car")] i = "car").length :=
  ⟨(detection_stats_spec [(0, "car")] []).1 5 (by decide),
   (detection_stats_spec [(0, "car")] [0, 5, 0]).2.2 "car"⟩

theorem dot_data : (("." : String)).data = ['.'] := rfl

theorem afterLastDot_append_ext (x e : String) (h : '.' ∉ e.data) :
    afterLastDot (x ++ "." ++ e) = e := by
  have hdata : (x ++ "." ++ e).data = x.data ++ '.' :: e.data := by
    rw [string_data_append, string_data_append, dot_data, List.append_assoc]
    rfl
  unfold afterLastDot
  rw [hdata, lastDotSplit_append_dot x.data e.data h]

theorem afterLastDot_append_ext2 (w x e : String) (h : '.' ∉ e.data) :
    afterLastDot (w ++ (x ++ "." ++ e)) = e := by
  have hdata : (w ++ (x ++ "." ++ e)).data = (w.data ++ x.data) ++ '.' :: e.data := by
    rw [string_data_append, string_data_append, string_data_append, dot_data,
      List.append_assoc, List.append_assoc]
    rfl
  unfold afterLastDot
  rw [hdata, lastDotSplit_append_dot (w.data ++ x.data) e.data h]

theorem hasDot_of_ext_allowed (name : String)
    (hext : allowed_extensions.contains (fileExt name) = true) :
    hasDot name = true := by
  by_cases h : hasDot name = true
  · exact h
  · exfalso
    rw [fileExt, if_neg h] at hext
    simp [allowed_extensions] at hext

/-- C10: for every accepted upload the extension component of both the
allocated unique filename and the result filename is the lower-cased form of
the original filename's extension, so an original extension containing an
uppercase letter is stored under an extension that differs from the original
verbatim. -/
theorem extension_lowercase_storage (m : YoloModel) (f : FileStorage)
    (env : Env) (dets : List Nat)
    (hne : f.filename ≠ "")
    (hext : allowed_extensions.contains (fileExt f.filename) = true)
    (hs : env.saveResult = Except.ok ()) (hi : env.inferResult = Except.ok dets)
    (hp : env.plotResult = Except.ok ()) (hr : env.resultSaveResult = Except.ok ()) :
    jGet (predict (some m) ⟨some f⟩ env).1.body "filename" =
      some (.str (uniqueName f env)) ∧
    afterLastDot (uniqueName f env) = pyLower (afterLastDot f.filename) ∧
    afterLastDot ("result_" ++ uniqueName f env) = pyLower (afterLastDot f.filename) ∧
    ((∃ c ∈ (afterLastDot f.filename).data, 'A' ≤ c ∧ c ≤ 'Z') →
      pyLower (afterLastDot f.filename) ≠ afterLastDot f.filename) := by
  have hd : hasDot f.filename = true := hasDot_of_ext_allowed f.filename hext
  rw [hasDot] at hd
  obtain ⟨⟨b, a⟩, hsplit⟩ : ∃ q, lastDotSplit f.filename.data = some q :=
    Option.isSome_iff_exists.1 hd
  have hafter : afterLastDot f.filename = String.mk a := by
    unfold afterLastDot
    rw [hsplit]
  have hnodot : '.' ∉ a := lastDotSplit_not_dot_right f.filename.data b a hsplit
  have hnodotE : '.' ∉ (pyLower (afterLastDot f.filename)).data := by
    rw [hafter]
    exact map_pyLowerChar_not_dot a hnodot
  refine ⟨?_, ?_, ?_, ?_⟩
  · rw [predict_eq_tryBlock m f env hne hext]
    unfold tryBlock
    rw [hs, hi, hp, hr]
    simp [jGet, uniqueName]
  · unfold uniqueName
    exact afterLastDot_append_ext _ _ hnodotE
  · unfold uniqueName
    exact afterLastDot_append_ext2 _ _ _ hnodotE
  · rintro ⟨c, hc, hu⟩
    rw [hafter] at hc
    rw [hafter]
    intro he
    have hdataeq : a.map pyLowerChar = a := congrArg String.data he
    exact map_pyLowerChar_ne_of_upper a ⟨c, hc, hu⟩ hdataeq

/-- C10 witness: the concrete upload `img.PNG` is stored with extension `png`,
which differs from the verbatim original `PNG`. -/
theorem extension_lowercase_storage_witness :
    afterLastDot (uniqueName ⟨"img.PNG"⟩
        ⟨1700000000, "abcd1234", Except.ok (), Except.ok [], Except.ok (),
         Except.ok (), 2048, false⟩) = pyLower (afterLastDot "img.PNG") ∧
    pyLower (afterLastDot "img.PNG") ≠ afterLastDot "img.PNG" ∧
    pyLower (afterLastDot "img.PNG") = "png" := by
  have h := extension_lowercase_storage ⟨[]⟩ ⟨"img.PNG"⟩
    ⟨1700000000, "abcd1234", Except.ok (), Except.ok [], Except.ok (),
     Except.ok (), 2048, false⟩ [] (by decide) (by decide) rfl rfl rfl rfl
  exact ⟨h.2.1, h.2.2.2 ⟨'P', by decide, by decide, by decide⟩, by decide⟩

end AerialDetection
